import Mathlib

/-!
Shallow embedding of the CutToTheChase editor range model
(frontend Zustand store: `addRange`, `updateRange`, `removeRange`,
`clearRanges`, `selectRange`, `undo`, `redo`, and the trim-job
orchestration boundary), together with proofs settling the spec claims.

Timestamps (JS `number`, seconds) are embedded as rationals `ℚ`; the
store only compares, `min`/`max`es and copies them, so `ℚ` is a faithful
executable stand-in.  Range ids (random strings from `generateId`) are
embedded as naturals drawn from a fresh-id counter `nextId`, which is a
deterministic model of a fresh-id generator.  The undo/redo stacks are
lists whose head is the stack top (JS `push`/`pop` act on the array end).
-/

namespace CutToTheChase

/-- A removal range `{id, start, end}`; the source field `end` is named
`stop` here because `end` is a keyword. -/
structure RemovalRange where
  id : Nat
  start : ℚ
  stop : ℚ
  deriving DecidableEq, Repr

/-- The overlap test used by `addRange`/`updateRange`:
`newRange.start < r.end && newRange.end > r.start`. -/
def overlapsB (a b : RemovalRange) : Bool :=
  decide (a.start < b.stop) && decide (a.stop > b.start)

/-- Propositional form of the overlap test. -/
def Overlaps (a b : RemovalRange) : Prop :=
  a.start < b.stop ∧ a.stop > b.start

instance (a b : RemovalRange) : Decidable (Overlaps a b) :=
  inferInstanceAs (Decidable (_ ∧ _))

/-- Comparison key of `removalRanges.sort((a, b) => a.start - b.start)`. -/
def leStart (a b : RemovalRange) : Prop := a.start ≤ b.start

instance : DecidableRel leStart :=
  fun a b => inferInstanceAs (Decidable (a.start ≤ b.start))

instance : IsTotal RemovalRange leStart := ⟨fun a b => le_total a.start b.start⟩

instance : IsTrans RemovalRange leStart := ⟨fun _ _ _ h1 h2 => le_trans h1 h2⟩

/-- The re-sort by `start` performed after every successful mutation
(a stable sort, like the JS engine's `Array.prototype.sort`). -/
def sortRanges (l : List RemovalRange) : List RemovalRange :=
  l.insertionSort leStart

/-- The slice of the editor store state that the range model touches. -/
structure EditorModel where
  removalRanges : List RemovalRange
  selectedRangeId : Option Nat
  undoStack : List (List RemovalRange)
  redoStack : List (List RemovalRange)
  error : Option String
  nextId : Nat
  deriving DecidableEq, Repr

/-- The store's initial state (the fields the range model touches). -/
def initModel : EditorModel :=
  { removalRanges := []
    selectedRangeId := none
    undoStack := []
    redoStack := []
    error := none
    nextId := 0 }

/-- `addRange(start, end)`: swap inverted bounds, reject on overlap with any
existing range (setting only the error message), otherwise push an undo
snapshot, clear redo, append the new range, re-sort, select it, clear the
error. -/
def addRange (start stop : ℚ) (s : EditorModel) : EditorModel :=
  let newRange : RemovalRange := ⟨s.nextId, min start stop, max start stop⟩
  if s.removalRanges.any (fun r => overlapsB newRange r) then
    { s with error := some "Ranges cannot overlap." }
  else
    { s with
      removalRanges := sortRanges (s.removalRanges ++ [newRange])
      selectedRangeId := some newRange.id
      undoStack := s.removalRanges :: s.undoStack
      redoStack := []
      error := none
      nextId := s.nextId + 1 }

/-- `draft.removalRanges.find((r) => r.id === id)` followed by in-place
mutation of its bounds: rewrite the first range carrying `id`, if any. -/
def updateFirst (id : Nat) (lo hi : ℚ) : List RemovalRange → List RemovalRange
  | [] => []
  | r :: rs =>
      if r.id = id then { r with start := lo, stop := hi } :: rs
      else r :: updateFirst id lo hi rs

/-- `updateRange(id, start, end)`: swap inverted bounds, reject on overlap
with any *other* range, otherwise push an undo snapshot, clear redo, move
the matched range, re-sort, clear the error (selection untouched).

The snapshot `[...draft.removalRanges]` spreads the immer draft array: it
is a fresh array (so the later in-place `sort` of `draft.removalRanges`
does not reorder it) but it holds the same element drafts, and the
subsequent `range.start = s; range.end = e` mutates the matched draft that
is aliased inside the just-pushed snapshot.  On finalization the stored
snapshot therefore carries the *post-update* bounds of the matched range,
in pre-sort order: `updateFirst id lo hi s.removalRanges`, not
`s.removalRanges`. -/
def updateRange (id : Nat) (start stop : ℚ) (s : EditorModel) : EditorModel :=
  let lo := min start stop
  let hi := max start stop
  if s.removalRanges.any
      (fun r => decide (r.id ≠ id) && overlapsB ⟨id, lo, hi⟩ r) then
    { s with error := some "Ranges cannot overlap." }
  else
    { s with
      removalRanges := sortRanges (updateFirst id lo hi s.removalRanges)
      undoStack := updateFirst id lo hi s.removalRanges :: s.undoStack
      redoStack := []
      error := none }

/-- `removeRange(id)`: always push an undo snapshot and clear redo, drop
every range carrying `id`, clear the selection when it pointed at `id`. -/
def removeRange (id : Nat) (s : EditorModel) : EditorModel :=
  { s with
    removalRanges := s.removalRanges.filter (fun r => decide (r.id ≠ id))
    selectedRangeId :=
      if s.selectedRangeId = some id then none else s.selectedRangeId
    undoStack := s.removalRanges :: s.undoStack
    redoStack := [] }

/-- `selectRange(id | null)`. -/
def selectRange (id : Option Nat) (s : EditorModel) : EditorModel :=
  { s with selectedRangeId := id }

/-- `clearRanges()`: a no-op on an empty range set; otherwise push an undo
snapshot, clear redo, empty the set and the selection. -/
def clearRanges (s : EditorModel) : EditorModel :=
  if s.removalRanges.length > 0 then
    { s with
      removalRanges := []
      selectedRangeId := none
      undoStack := s.removalRanges :: s.undoStack
      redoStack := [] }
  else s

/-- `undo()`: pop the top snapshot if any, push the current set onto redo,
restore the snapshot, clear the selection; no-op on an empty undo stack. -/
def undo (s : EditorModel) : EditorModel :=
  match s.undoStack with
  | [] => s
  | prev :: rest =>
      { s with
        removalRanges := prev
        selectedRangeId := none
        undoStack := rest
        redoStack := s.removalRanges :: s.redoStack }

/-- `redo()`: mirror of `undo` on the redo stack. -/
def redo (s : EditorModel) : EditorModel :=
  match s.redoStack with
  | [] => s
  | next :: rest =>
      { s with
        removalRanges := next
        selectedRangeId := none
        undoStack := s.removalRanges :: s.undoStack
        redoStack := rest }

/-! ### Basic facts about overlap and sorting -/

/-- No two members of the list overlap (the spec forbids
`a.start < b.end && a.end > b.start` for any two members). -/
def NoOverlaps (l : List RemovalRange) : Prop :=
  l.Pairwise fun a b => ¬ Overlaps a b

theorem overlaps_symm {a b : RemovalRange} (h : Overlaps a b) : Overlaps b a :=
  ⟨h.2, h.1⟩

theorem not_overlaps_symm {a b : RemovalRange} (h : ¬ Overlaps a b) :
    ¬ Overlaps b a :=
  fun hba => h (overlaps_symm hba)

theorem overlapsB_eq_false_iff {a b : RemovalRange} :
    overlapsB a b = false ↔ ¬ Overlaps a b := by
  simp [overlapsB, Overlaps]

theorem noOverlaps_of_perm {l l' : List RemovalRange} (h : l.Perm l') :
    NoOverlaps l ↔ NoOverlaps l' :=
  List.Perm.pairwise_iff (fun hxy => not_overlaps_symm hxy) h

theorem sortRanges_perm (l : List RemovalRange) : (sortRanges l).Perm l :=
  List.perm_insertionSort leStart l

theorem sortRanges_sorted (l : List RemovalRange) :
    (sortRanges l).Sorted leStart :=
  List.sorted_insertionSort leStart l

/-! ### The reachable-state invariant -/

/-- Ids in the range set are pairwise distinct and below the fresh-id
counter (the model of `generateId` handing out fresh ids). -/
def GoodIds (s : EditorModel) : Prop :=
  (s.removalRanges.map RemovalRange.id).Nodup ∧
  ∀ r ∈ s.removalRanges, r.id < s.nextId

/-- The range-model invariant: range set sorted ascending by `start`,
pairwise non-overlapping, with well-formed ids. -/
def Inv (s : EditorModel) : Prop :=
  s.removalRanges.Sorted leStart ∧ NoOverlaps s.removalRanges ∧ GoodIds s

theorem inv_initModel : Inv initModel := by
  refine ⟨List.sorted_nil, List.Pairwise.nil, List.nodup_nil, ?_⟩
  intro r hr
  simp [initModel] at hr

theorem inv_addRange (st en : ℚ) (s : EditorModel) (h : Inv s) :
    Inv (addRange st en s) := by
  obtain ⟨hsort, hno, hnd, hbound⟩ := h
  by_cases hc : s.removalRanges.any
      (fun r => overlapsB ⟨s.nextId, min st en, max st en⟩ r) = true
  · simpa [addRange, hc, Inv, NoOverlaps, GoodIds] using
      ⟨hsort, hno, hnd, hbound⟩
  · have hc' : ∀ r ∈ s.removalRanges,
        ¬ Overlaps ⟨s.nextId, min st en, max st en⟩ r := by
      intro r hr
      exact overlapsB_eq_false_iff.mp
        (Bool.eq_false_iff.mpr
          (List.any_eq_false.mp (Bool.eq_false_iff.mpr hc) r hr))
    have hperm :
        (sortRanges (s.removalRanges ++
          [⟨s.nextId, min st en, max st en⟩])).Perm
          (s.removalRanges ++ [⟨s.nextId, min st en, max st en⟩]) :=
      sortRanges_perm _
    refine ⟨?_, ?_, ?_, ?_⟩ <;>
      simp only [addRange, hc, if_false, Bool.false_eq_true, GoodIds]
    · exact sortRanges_sorted _
    · rw [noOverlaps_of_perm hperm]
      rw [NoOverlaps, List.pairwise_append]
      refine ⟨hno, List.pairwise_singleton _ _, ?_⟩
      intro a ha b hb
      rw [List.mem_singleton] at hb
      subst hb
      exact not_overlaps_symm (hc' a ha)
    · rw [List.Perm.nodup_iff (hperm.map RemovalRange.id)]
      rw [List.map_append, List.nodup_append]
      refine ⟨hnd, List.nodup_singleton _, ?_⟩
      intro x hx hx'
      rw [List.map_singleton, List.mem_singleton] at hx'
      subst hx'
      rw [List.mem_map] at hx
      obtain ⟨r, hr, hrid⟩ := hx
      exact absurd (hrid ▸ hbound r hr) (lt_irrefl _)
    · intro r hr
      rw [hperm.mem_iff, List.mem_append, List.mem_singleton] at hr
      rcases hr with hr | hr
      · exact Nat.lt_succ_of_lt (hbound r hr)
      · subst hr
        exact Nat.lt_succ_self _

theorem map_id_updateFirst (id : Nat) (lo hi : ℚ) :
    ∀ l : List RemovalRange,
      (updateFirst id lo hi l).map RemovalRange.id = l.map RemovalRange.id
  | [] => rfl
  | r :: rs => by
      by_cases h : r.id = id
      · simp [updateFirst, h]
      · simp [updateFirst, h, map_id_updateFirst id lo hi rs]

theorem mem_updateFirst {id : Nat} {lo hi : ℚ} {x : RemovalRange} :
    ∀ {l : List RemovalRange}, x ∈ updateFirst id lo hi l →
      x ∈ l ∨ (x.start = lo ∧ x.stop = hi)
  | [], hx => absurd hx (List.not_mem_nil x)
  | r :: rs, hx => by
      by_cases h : r.id = id
      · simp only [updateFirst, h, if_true, List.mem_cons] at hx
        rcases hx with hx | hx
        · right
          subst hx
          exact ⟨rfl, rfl⟩
        · exact Or.inl (List.mem_cons_of_mem _ hx)
      · simp only [updateFirst, h, if_false, List.mem_cons] at hx
        rcases hx with hx | hx
        · exact Or.inl (hx ▸ List.mem_cons_self _ _)
        · rcases mem_updateFirst hx with h' | h'
          · exact Or.inl (List.mem_cons_of_mem _ h')
          · exact Or.inr h'

theorem noOverlaps_updateFirst {id : Nat} {lo hi : ℚ} :
    ∀ {l : List RemovalRange},
      (l.map RemovalRange.id).Nodup → NoOverlaps l →
      (∀ r ∈ l, r.id ≠ id → ¬ (lo < r.stop ∧ hi > r.start)) →
      NoOverlaps (updateFirst id lo hi l)
  | [], _, _, _ => List.Pairwise.nil
  | r :: rs, hnd, hno, hck => by
      rw [List.map_cons, List.nodup_cons] at hnd
      rw [NoOverlaps, List.pairwise_cons] at hno
      by_cases h : r.id = id
      · simp only [updateFirst, h, if_true]
        rw [NoOverlaps, List.pairwise_cons]
        refine ⟨?_, hno.2⟩
        intro b hb
        have hbid : b.id ≠ id := by
          intro hbid
          exact hnd.1 (h ▸ hbid ▸ List.mem_map_of_mem RemovalRange.id hb)
        have := hck b (List.mem_cons_of_mem _ hb) hbid
        simpa [Overlaps] using this
      · simp only [updateFirst, h, if_false]
        rw [NoOverlaps, List.pairwise_cons]
        refine ⟨?_, noOverlaps_updateFirst hnd.2 hno.2 ?_⟩
        · intro b hb
          rcases mem_updateFirst hb with hb' | hb'
          · exact hno.1 b hb'
          · have := hck r (List.mem_cons_self _ _) h
            rw [Overlaps, hb'.1, hb'.2]
            intro hcon
            exact this ⟨hcon.2, hcon.1⟩
        · intro b hb hbid
          exact hck b (List.mem_cons_of_mem _ hb) hbid

theorem inv_updateRange (id : Nat) (st en : ℚ) (s : EditorModel)
    (h : Inv s) : Inv (updateRange id st en s) := by
  obtain ⟨hsort, hno, hnd, hbound⟩ := h
  by_cases hc : s.removalRanges.any
      (fun r => decide (r.id ≠ id) &&
        overlapsB ⟨id, min st en, max st en⟩ r) = true
  · have heq : updateRange id st en s =
        { s with error := some "Ranges cannot overlap." } := by
      simp only [updateRange]
      rw [if_pos hc]
    rw [Inv, heq]
    exact ⟨hsort, hno, hnd, hbound⟩
  · have hc' : ∀ r ∈ s.removalRanges, r.id ≠ id →
        ¬ (min st en < r.stop ∧ max st en > r.start) := by
      intro r hr hrid
      have hfalse := List.any_eq_false.mp (Bool.eq_false_iff.mpr hc) r hr
      simp only [Bool.and_eq_true, decide_eq_true_eq, not_and] at hfalse
      have h2 := hfalse hrid
      exact fun hov =>
        (overlapsB_eq_false_iff.mp (Bool.eq_false_iff.mpr h2)) hov
    have hperm :
        (sortRanges (updateFirst id (min st en) (max st en)
          s.removalRanges)).Perm
          (updateFirst id (min st en) (max st en) s.removalRanges) :=
      sortRanges_perm _
    have heq : updateRange id st en s =
        { s with
          removalRanges := sortRanges (updateFirst id (min st en)
            (max st en) s.removalRanges)
          undoStack := updateFirst id (min st en) (max st en)
            s.removalRanges :: s.undoStack
          redoStack := []
          error := none } := by
      simp only [updateRange]
      rw [if_neg hc]
    rw [Inv, heq]
    refine ⟨?_, ?_, ?_, ?_⟩ <;> simp only [GoodIds]
    · exact sortRanges_sorted _
    · rw [noOverlaps_of_perm hperm]
      exact noOverlaps_updateFirst hnd hno hc'
    · rw [List.Perm.nodup_iff (hperm.map RemovalRange.id)]
      rw [map_id_updateFirst]
      exact hnd
    · intro r hr
      rw [hperm.mem_iff] at hr
      have hrid : r.id ∈ (updateFirst id (min st en) (max st en)
          s.removalRanges).map RemovalRange.id :=
        List.mem_map_of_mem RemovalRange.id hr
      rw [map_id_updateFirst, List.mem_map] at hrid
      obtain ⟨r', hr', hr'id⟩ := hrid
      exact hr'id ▸ hbound r' hr'

/-! ### Claim C1: sortedness and non-overlap of the range set -/

/-- One `addRange`/`updateRange` call with its arguments. -/
inductive RangeOp where
  | add (start stop : ℚ)
  | update (id : Nat) (start stop : ℚ)

/-- Run one `RangeOp` against the store. -/
def applyRangeOp : RangeOp → EditorModel → EditorModel
  | .add st en, s => addRange st en s
  | .update id st en, s => updateRange id st en s

/-- Run a sequence of `addRange`/`updateRange` calls from a given state. -/
def applyRangeOps (ops : List RangeOp) (s : EditorModel) : EditorModel :=
  ops.foldl (fun t op => applyRangeOp op t) s

theorem inv_applyRangeOp (op : RangeOp) (s : EditorModel) (h : Inv s) :
    Inv (applyRangeOp op s) := by
  cases op with
  | add st en => exact inv_addRange st en s h
  | update id st en => exact inv_updateRange id st en s h

theorem inv_applyRangeOps (ops : List RangeOp) :
    ∀ s : EditorModel, Inv s → Inv (applyRangeOps ops s) := by
  induction ops with
  | nil => exact fun s h => h
  | cons op rest ih =>
      intro s h
      exact ih (applyRangeOp op s) (inv_applyRangeOp op s h)

/-- C1: after every sequence of `addRange`/`updateRange` calls (proved here
for *all* argument sequences, which subsumes the claim's restriction to
distinct valid ranges), the removal-range set is sorted ascending by
`start` and pairwise non-overlapping: no two members `a`, `b` satisfy
`a.start < b.end && a.end > b.start`. -/
theorem C1_range_set_sorted_and_nonoverlapping (ops : List RangeOp) :
    (applyRangeOps ops initModel).removalRanges.Sorted leStart ∧
    NoOverlaps (applyRangeOps ops initModel).removalRanges := by
  have h := inv_applyRangeOps ops initModel inv_initModel
  exact ⟨h.1, h.2.1⟩

/-! ### Claim C2: mutating operations push a snapshot and clear redo

`addRange`, `removeRange` and `clearRanges` never mutate a range element
in place, so their spread snapshot really holds the pre-mutation values.
`updateRange` is different: its snapshot aliases the range draft that the
recipe then mutates (`range.start = s; range.end = e`), so the snapshot
stored on the undo stack carries the post-update bounds — the claimed
"element values held before the mutation" fails in the program for every
`updateRange` that changes a range's bounds, and the following `undo()`
does not revert the edit. -/

/-- A concrete state holding the single range `[1, 3]` (id 7), selected. -/
def demoModel : EditorModel :=
  { removalRanges := [⟨7, 1, 3⟩]
    selectedRangeId := some 7
    undoStack := []
    redoStack := [[⟨7, 1, 3⟩]]
    error := none
    nextId := 8 }

/-- C2 (code-bug evidence): `updateRange(7, 4, 6)` on a model holding the
single range `{id 7, [1, 3]}` changes the range set, yet the snapshot
pushed onto the undo stack is `[{7, [4, 6]}]` — the *post-update* bounds —
and not the pre-mutation set `[{7, [1, 3]}]`; consequently the following
`undo()` does not restore the pre-mutation range set. -/
theorem C2_snapshot_aliasing_bug :
    (updateRange 7 4 6 demoModel).removalRanges ≠
      demoModel.removalRanges ∧
    demoModel.removalRanges = [⟨7, 1, 3⟩] ∧
    (updateRange 7 4 6 demoModel).undoStack = [[⟨7, 4, 6⟩]] ∧
    (undo (updateRange 7 4 6 demoModel)).removalRanges ≠
      demoModel.removalRanges := by
  decide

/-! ### Claim C3: overlap rejection leaves the model unchanged -/

/-- C3: when the overlap check of `addRange` (resp. `updateRange`) fires,
the call only records the overlap error message: the range set, the undo
stack and the redo stack (and the selection and id counter) are exactly
what they were before, and no snapshot is pushed. -/
theorem C3_overlap_rejection_model_unchanged (s : EditorModel)
    (ast aen : ℚ) (uid : Nat) (ust uen : ℚ)
    (ha : s.removalRanges.any
      (fun r => overlapsB ⟨s.nextId, min ast aen, max ast aen⟩ r) = true)
    (hu : s.removalRanges.any
      (fun r => decide (r.id ≠ uid) &&
        overlapsB ⟨uid, min ust uen, max ust uen⟩ r) = true) :
    addRange ast aen s = { s with error := some "Ranges cannot overlap." } ∧
    updateRange uid ust uen s =
      { s with error := some "Ranges cannot overlap." } := by
  constructor
  · simp only [addRange]
    rw [if_pos ha]
  · simp only [updateRange]
    rw [if_pos hu]

theorem C3_witness :
    addRange 2 4 demoModel =
      { demoModel with error := some "Ranges cannot overlap." } ∧
    updateRange 99 2 4 demoModel =
      { demoModel with error := some "Ranges cannot overlap." } :=
  C3_overlap_rejection_model_unchanged demoModel 2 4 99 2 4
    (by decide) (by decide)

/-! ### Claim C4: input normalization and (absent) width/bounds validation -/

/-- C4 counterexample: the store performs no width or bounds validation at
all.  `addRange(5, 5)` on the initial model is a zero-width range (width
`0 < 0.1`), yet the call is not rejected: it mutates the range set and
leaves no error, where the claim demands an `InvalidRange` rejection with
the model unchanged. -/
theorem C4_counterexample :
    (addRange 5 5 initModel).removalRanges ≠ initModel.removalRanges ∧
    (addRange 5 5 initModel).error = none ∧
    (addRange 5 5 initModel).undoStack ≠ initModel.undoStack := by
  decide

/-- C4 amended: inverted `start`/`end` inputs are swapped (both ops are
symmetric in their bound arguments), but there is no minimum-width or
bounds validation and no `InvalidRange` rejection: any `addRange` or
`updateRange` call whose swapped range does not overlap another existing
range succeeds and mutates the model, regardless of the range's width or
of the video duration. -/
theorem C4_amended_swap_but_no_validation (s : EditorModel)
    (st en : ℚ) (id : Nat)
    (ha : s.removalRanges.any
      (fun r => overlapsB ⟨s.nextId, min st en, max st en⟩ r) = false)
    (hu : s.removalRanges.any
      (fun r => decide (r.id ≠ id) &&
        overlapsB ⟨id, min st en, max st en⟩ r) = false) :
    addRange st en s = addRange en st s ∧
    updateRange id st en s = updateRange id en st s ∧
    (addRange st en s).removalRanges =
      sortRanges (s.removalRanges ++ [⟨s.nextId, min st en, max st en⟩]) ∧
    (addRange st en s).error = none ∧
    (updateRange id st en s).removalRanges =
      sortRanges (updateFirst id (min st en) (max st en)
        s.removalRanges) ∧
    (updateRange id st en s).error = none := by
  refine ⟨?_, ?_, ?_⟩
  · simp only [addRange, min_comm st en, max_comm st en]
  · simp only [updateRange, min_comm st en, max_comm st en]
  · have hna : ¬ (s.removalRanges.any
        (fun r => overlapsB ⟨s.nextId, min st en, max st en⟩ r) = true) :=
      Bool.eq_false_iff.mp ha
    have hnu : ¬ (s.removalRanges.any
        (fun r => decide (r.id ≠ id) &&
          overlapsB ⟨id, min st en, max st en⟩ r) = true) :=
      Bool.eq_false_iff.mp hu
    have heqa : addRange st en s =
        { s with
          removalRanges := sortRanges (s.removalRanges ++
            [⟨s.nextId, min st en, max st en⟩])
          selectedRangeId := some s.nextId
          undoStack := s.removalRanges :: s.undoStack
          redoStack := []
          error := none
          nextId := s.nextId + 1 } := by
      simp only [addRange]
      rw [if_neg hna]
    have hequ : updateRange id st en s =
        { s with
          removalRanges := sortRanges (updateFirst id (min st en)
            (max st en) s.removalRanges)
          undoStack := updateFirst id (min st en) (max st en)
            s.removalRanges :: s.undoStack
          redoStack := []
          error := none } := by
      simp only [updateRange]
      rw [if_neg hnu]
    rw [heqa, hequ]
    exact ⟨rfl, rfl, rfl, rfl⟩

theorem C4_witness :
    addRange 500 500 initModel = addRange 500 500 initModel ∧
    updateRange 3 500 500 initModel = updateRange 3 500 500 initModel ∧
    (addRange 500 500 initModel).removalRanges =
      sortRanges (initModel.removalRanges ++ [⟨initModel.nextId,
        min 500 500, max 500 500⟩]) ∧
    (addRange 500 500 initModel).error = none ∧
    (updateRange 3 500 500 initModel).removalRanges =
      sortRanges (updateFirst 3 (min 500 500) (max 500 500)
        initModel.removalRanges) ∧
    (updateRange 3 500 500 initModel).error = none :=
  C4_amended_swap_but_no_validation initModel 500 500 3 (by decide)
    (by decide)

/-! ### Claims C5/C6: undo/redo -/

theorem undo_of_undoStack_nil (s : EditorModel) (h : s.undoStack = []) :
    undo s = s := by
  simp only [undo, h]

theorem undo_of_undoStack_cons (s : EditorModel) (u : List RemovalRange)
    (us : List (List RemovalRange)) (h : s.undoStack = u :: us) :
    undo s =
      { s with
        removalRanges := u
        selectedRangeId := none
        undoStack := us
        redoStack := s.removalRanges :: s.redoStack } := by
  simp only [undo, h]

theorem redo_of_redoStack_nil (s : EditorModel) (h : s.redoStack = []) :
    redo s = s := by
  simp only [redo, h]

theorem redo_of_redoStack_cons (s : EditorModel) (next : List RemovalRange)
    (rest : List (List RemovalRange)) (h : s.redoStack = next :: rest) :
    redo s =
      { s with
        removalRanges := next
        selectedRangeId := none
        undoStack := s.removalRanges :: s.undoStack
        redoStack := rest } := by
  simp only [redo, h]

/-- `k` undos then `k` redos restore the range set and both stacks,
whenever `k` does not exceed the undo-stack depth. -/
theorem undo_redo_k (k : Nat) :
    ∀ s : EditorModel, k ≤ s.undoStack.length →
      (redo^[k] (undo^[k] s)).removalRanges = s.removalRanges ∧
      (redo^[k] (undo^[k] s)).undoStack = s.undoStack ∧
      (redo^[k] (undo^[k] s)).redoStack = s.redoStack := by
  induction k with
  | zero =>
      intro s _
      simp
  | succ k ih =>
      intro s h
      rcases hs : s.undoStack with _ | ⟨u, us⟩
      · rw [hs] at h
        simp at h
      · have hlen : k ≤ us.length := by
          rw [hs] at h
          exact Nat.le_of_succ_le_succ h
        have hu := undo_of_undoStack_cons s u us hs
        have ihlen : k ≤ (undo s).undoStack.length := by
          rw [hu]
          exact hlen
        obtain ⟨ihr, ihu, ihd⟩ := ih (undo s) ihlen
        have hur : (undo s).removalRanges = u := by rw [hu]
        have huu : (undo s).undoStack = us := by rw [hu]
        have hud : (undo s).redoStack = s.removalRanges :: s.redoStack := by
          rw [hu]
        rw [hur] at ihr
        rw [huu] at ihu
        rw [hud] at ihd
        have hre := redo_of_redoStack_cons
          (redo^[k] (undo^[k] (undo s))) s.removalRanges s.redoStack ihd
        rw [Function.iterate_succ_apply undo k s,
          Function.iterate_succ_apply' redo k, hre]
        refine ⟨rfl, ?_, rfl⟩
        show (redo^[k] (undo^[k] (undo s))).removalRanges ::
          (redo^[k] (undo^[k] (undo s))).undoStack = u :: us
        rw [ihr, ihu]

/-- C5 counterexample: `undo` composed with `redo` is *not* the identity
on the range set for every reachable state.  Reachable state: start from
the initial model, `addRange(1,2)`, then `undo()` — the undo stack is now
empty while the redo stack is not.  A further `undo()` is a no-op, but the
following `redo()` pops the redo stack and changes the range set. -/
theorem C5_counterexample :
    (redo (undo (undo (addRange 1 2 initModel)))).removalRanges ≠
      (undo (addRange 1 2 initModel)).removalRanges := by
  decide

/-- C5 amended: for every state and every `k` up to the current undo-stack
depth, `k` consecutive `undo()` calls followed by `k` consecutive `redo()`
calls restore the range set exactly; in particular `undo` followed by
`redo` is the identity on the range set whenever the undo stack is
nonempty.  (The unrestricted form fails when the undo stack is empty but
the redo stack is not.) -/
theorem C5_amended_k_undo_redo_restores (s : EditorModel) (k : Nat)
    (h : k ≤ s.undoStack.length) :
    (redo^[k] (undo^[k] s)).removalRanges = s.removalRanges :=
  (undo_redo_k k s h).1

theorem C5_witness :
    1 ≤ (addRange 1 2 initModel).undoStack.length ∧
    (redo^[1] (undo^[1] (addRange 1 2 initModel))).removalRanges =
      (addRange 1 2 initModel).removalRanges :=
  ⟨by decide,
    C5_amended_k_undo_redo_restores (addRange 1 2 initModel) 1 (by decide)⟩

/-- C6: `undo()` pops the most recent snapshot from the undo stack, pushes
the current range set onto the redo stack, restores the popped snapshot as
the range set and clears the selection; it is a no-op when the undo stack
is empty; `redo()` is the mirror operation on the redo stack. -/
theorem C6_undo_redo_mechanics (ranges u next : List RemovalRange)
    (us rs : List (List RemovalRange)) (sel : Option Nat)
    (err : Option String) (nid : Nat) :
    undo ⟨ranges, sel, [], rs, err, nid⟩ = ⟨ranges, sel, [], rs, err, nid⟩ ∧
    redo ⟨ranges, sel, us, [], err, nid⟩ = ⟨ranges, sel, us, [], err, nid⟩ ∧
    undo ⟨ranges, sel, u :: us, rs, err, nid⟩ =
      ⟨u, none, us, ranges :: rs, err, nid⟩ ∧
    redo ⟨ranges, sel, us, next :: rs, err, nid⟩ =
      ⟨next, none, ranges :: us, rs, err, nid⟩ :=
  ⟨rfl, rfl, rfl, rfl⟩

/-! ### Claim C7: single-job-per-session admission (spec-modelled)

The backend job orchestrator (`backend/app`, reached through the
`/api/process/ws/trim` socket the frontend `startTrim` opens) is not part
of the available sources; only its frontend caller is.  The admission
behaviour is therefore modelled from the spec. -/

/-- Modelled from the spec: trim-job states
`Queued → Running → {Completed, Failed, Cancelled}`. -/
inductive JobState where
  | Queued
  | Running
  | Completed
  | Failed
  | Cancelled
  deriving DecidableEq, Repr

/-- Modelled from the spec: one trim job, keyed by its consumer session. -/
structure TrimJob where
  session : Nat
  state : JobState
  deriving DecidableEq, Repr

/-- Modelled from the spec: the orchestrator's explicit job registry,
keyed by session/job id. -/
structure Orchestrator where
  jobs : List TrimJob
  deriving DecidableEq, Repr

/-- The orchestrator with no jobs. -/
def emptyOrchestrator : Orchestrator := { jobs := [] }

/-- Whether a `Running` job is registered for the session. -/
def hasRunningJob (o : Orchestrator) (sess : Nat) : Bool :=
  o.jobs.any fun j =>
    decide (j.session = sess) && decide (j.state = JobState.Running)

/-- Modelled from the spec: `startTrim` admission — a trim request while a
job is `Running` for the same session is refused (`false`, nothing queued,
registry unchanged); otherwise a new `Running` job is registered. -/
def startTrim (sess : Nat) (o : Orchestrator) : Orchestrator × Bool :=
  if hasRunningJob o sess then (o, false)
  else ({ jobs := ⟨sess, JobState.Running⟩ :: o.jobs }, true)

/-- Modelled from the spec: move the session's `Running` job (if any) to a
terminal state. -/
def finishFirst (sess : Nat) (fin : JobState) :
    List TrimJob → List TrimJob
  | [] => []
  | j :: js =>
      if j.session = sess ∧ j.state = JobState.Running then
        { j with state := fin } :: js
      else j :: finishFirst sess fin js

/-- An event observable at the orchestrator boundary: a trim request for a
session, or a running job of a session reaching a terminal state. -/
inductive JobEvent where
  | start (sess : Nat)
  | finish (sess : Nat) (fin : JobState)

/-- Modelled from the spec: one orchestrator transition.  A `finish` event
may only move a job to a terminal (non-`Running`) state. -/
def jobStep : JobEvent → Orchestrator → Orchestrator
  | .start sess, o => (startTrim sess o).1
  | .finish sess fin, o =>
      if fin = JobState.Running then o
      else { jobs := finishFirst sess fin o.jobs }

/-- Run a sequence of orchestrator events from the empty registry. -/
def runJobEvents (evs : List JobEvent) : Orchestrator :=
  evs.foldl (fun o e => jobStep e o) emptyOrchestrator

/-- Number of `Running` jobs registered for a session. -/
def runningCount (o : Orchestrator) (sess : Nat) : Nat :=
  o.jobs.countP fun j =>
    decide (j.session = sess) && decide (j.state = JobState.Running)

/-- At most one `Running` job per session. -/
def SingleJobPerSession (o : Orchestrator) : Prop :=
  ∀ sess, runningCount o sess ≤ 1

theorem runningCount_finishFirst (sess qsess : Nat) (fin : JobState)
    (hfin : fin ≠ JobState.Running) :
    ∀ js : List TrimJob,
      (finishFirst sess fin js).countP (fun j =>
        decide (j.session = qsess) &&
          decide (j.state = JobState.Running)) ≤
      js.countP (fun j =>
        decide (j.session = qsess) && decide (j.state = JobState.Running))
  | [] => le_refl _
  | j :: js => by
      by_cases hj : j.session = sess ∧ j.state = JobState.Running
      · simp only [finishFirst, if_pos hj, List.countP_cons]
        have hcount : (decide (j.session = qsess) &&
            decide (fin = JobState.Running)) = false := by
          simp [hfin]
        simp only [hcount, Bool.false_eq_true, if_false]
        omega
      · simp only [finishFirst, if_neg hj, List.countP_cons]
        have := runningCount_finishFirst sess qsess fin hfin js
        omega

theorem singleJob_jobStep (e : JobEvent) (o : Orchestrator)
    (h : SingleJobPerSession o) : SingleJobPerSession (jobStep e o) := by
  cases e with
  | start sess =>
      by_cases hr : hasRunningJob o sess = true
      · have heq : jobStep (.start sess) o = o := by
          show (startTrim sess o).1 = o
          simp only [startTrim]
          rw [if_pos hr]
        rw [heq]
        exact h
      · have heq : jobStep (.start sess) o =
            { jobs := ⟨sess, JobState.Running⟩ :: o.jobs } := by
          show (startTrim sess o).1 = _
          simp only [startTrim]
          rw [if_neg hr]
        rw [heq]
        intro qsess
        by_cases hq : qsess = sess
        · subst hq
          have hzero : (o.jobs.countP fun j =>
              decide (j.session = qsess) &&
                decide (j.state = JobState.Running)) = 0 := by
            rw [List.countP_eq_zero]
            intro j hj
            have := List.any_eq_false.mp (Bool.eq_false_iff.mpr hr) j hj
            simpa using this
          simp [runningCount, List.countP_cons, hzero]
        · have hle := h qsess
          rw [runningCount] at hle
          simp only [runningCount, List.countP_cons]
          have hsne : sess ≠ qsess := fun hcon => hq hcon.symm
          simpa [hsne] using hle
  | finish sess fin =>
      by_cases hfin : fin = JobState.Running
      · simp only [jobStep, if_pos hfin]
        exact h
      · simp only [jobStep, if_neg hfin]
        intro qsess
        exact le_trans
          (runningCount_finishFirst sess qsess fin hfin o.jobs) (h qsess)

theorem singleJob_runJobEvents (evs : List JobEvent) :
    SingleJobPerSession (runJobEvents evs) := by
  have haux : ∀ o : Orchestrator, SingleJobPerSession o →
      SingleJobPerSession (evs.foldl (fun t e => jobStep e t) o) := by
    induction evs with
    | nil => exact fun o h => h
    | cons e rest ih =>
        intro o h
        exact ih (jobStep e o) (singleJob_jobStep e o h)
  refine haux emptyOrchestrator ?_
  intro sess
  simp [runningCount, emptyOrchestrator]

/-- C7 (spec-modelled): a `startTrim` request issued while a job is still
`Running` for the session is rejected — the registry is unchanged and
nothing is queued — and consequently, along every event sequence from the
empty registry, at most one `Running` job exists per session. -/
theorem C7_single_running_job_per_session (o : Orchestrator) (sess : Nat)
    (evs : List JobEvent) (h : hasRunningJob o sess = true) :
    startTrim sess o = (o, false) ∧
    SingleJobPerSession (runJobEvents evs) := by
  constructor
  · simp only [startTrim]
    rw [if_pos h]
  · exact singleJob_runJobEvents evs

theorem C7_witness :
    hasRunningJob { jobs := [⟨4, JobState.Running⟩] } 4 = true ∧
    startTrim 4 { jobs := [⟨4, JobState.Running⟩] } =
      ({ jobs := [⟨4, JobState.Running⟩] }, false) ∧
    SingleJobPerSession (runJobEvents [JobEvent.start 4]) := by
  have h := C7_single_running_job_per_session
    { jobs := [⟨4, JobState.Running⟩] } 4 [JobEvent.start 4] (by decide)
  exact ⟨by decide, h⟩

/-! ### Claim C8: removal and the selection id -/

/-- C8: `removeRange(id)` clears the selection when `id` is the currently
selected range (in particular when it removes the selected range), and
leaves the selection unchanged when the removed range is not the selected
one. -/
theorem C8_remove_selection (s : EditorModel) (id : Nat) :
    (s.selectedRangeId = some id →
      (removeRange id s).selectedRangeId = none) ∧
    (s.selectedRangeId ≠ some id →
      (removeRange id s).selectedRangeId = s.selectedRangeId) := by
  constructor
  · intro h
    simp [removeRange, h]
  · intro h
    simp [removeRange, h]

theorem C8_witness :
    demoModel.selectedRangeId = some 7 ∧
    (removeRange 7 demoModel).selectedRangeId = none ∧
    (removeRange 2 demoModel).selectedRangeId =
      demoModel.selectedRangeId :=
  ⟨rfl, (C8_remove_selection demoModel 7).1 rfl,
    (C8_remove_selection demoModel 2).2 (by decide)⟩

/-! ### Claim C9: selection and error on successful add/update -/

/-- C9: a successful `addRange` selects the newly created range (its id is
the fresh id the call consumed) and clears the stored error message; a
successful `updateRange` leaves the selection unchanged and clears the
error. -/
theorem C9_success_selection_error (s : EditorModel)
    (ast aen : ℚ) (uid : Nat) (ust uen : ℚ)
    (ha : s.removalRanges.any
      (fun r => overlapsB ⟨s.nextId, min ast aen, max ast aen⟩ r) = false)
    (hu : s.removalRanges.any
      (fun r => decide (r.id ≠ uid) &&
        overlapsB ⟨uid, min ust uen, max ust uen⟩ r) = false) :
    (addRange ast aen s).selectedRangeId = some s.nextId ∧
    (addRange ast aen s).error = none ∧
    (updateRange uid ust uen s).selectedRangeId = s.selectedRangeId ∧
    (updateRange uid ust uen s).error = none := by
  have heqa : addRange ast aen s =
      { s with
        removalRanges := sortRanges (s.removalRanges ++
          [⟨s.nextId, min ast aen, max ast aen⟩])
        selectedRangeId := some s.nextId
        undoStack := s.removalRanges :: s.undoStack
        redoStack := []
        error := none
        nextId := s.nextId + 1 } := by
    simp only [addRange]
    rw [if_neg (Bool.eq_false_iff.mp ha)]
  have hequ : updateRange uid ust uen s =
      { s with
        removalRanges := sortRanges (updateFirst uid (min ust uen)
          (max ust uen) s.removalRanges)
        undoStack := updateFirst uid (min ust uen) (max ust uen)
          s.removalRanges :: s.undoStack
        redoStack := []
        error := none } := by
    simp only [updateRange]
    rw [if_neg (Bool.eq_false_iff.mp hu)]
  rw [heqa, hequ]
  exact ⟨rfl, rfl, rfl, rfl⟩

theorem C9_witness :
    (addRange 10 12 demoModel).selectedRangeId = some demoModel.nextId ∧
    (addRange 10 12 demoModel).error = none ∧
    (updateRange 7 5 6 demoModel).selectedRangeId =
      demoModel.selectedRangeId ∧
    (updateRange 7 5 6 demoModel).error = none :=
  C9_success_selection_error demoModel 10 12 7 5 6 (by decide) (by decide)

/-! ### Claim C10: removal of a missing id, clearing an empty set -/

/-- C10: `removeRange(id)` with an id absent from the range set still
pushes an undo snapshot and clears the redo stack while leaving the range
set unchanged, and the following `undo()` consumes that snapshot, restoring
the identical range set and the previous undo stack; `clearRanges()` on an
empty range set pushes nothing and changes nothing. -/
theorem C10_remove_missing_and_clear_empty (s t : EditorModel) (id : Nat)
    (hid : ∀ r ∈ s.removalRanges, r.id ≠ id)
    (hempty : t.removalRanges = []) :
    (removeRange id s).removalRanges = s.removalRanges ∧
    (removeRange id s).undoStack = s.removalRanges :: s.undoStack ∧
    (removeRange id s).redoStack = [] ∧
    (undo (removeRange id s)).removalRanges = s.removalRanges ∧
    (undo (removeRange id s)).undoStack = s.undoStack ∧
    clearRanges t = t := by
  have hfilter : s.removalRanges.filter
      (fun r => decide (r.id ≠ id)) = s.removalRanges := by
    rw [List.filter_eq_self]
    intro r hr
    simpa using hid r hr
  have hundo := undo_of_undoStack_cons (removeRange id s)
    s.removalRanges s.undoStack rfl
  refine ⟨hfilter, rfl, rfl, ?_, ?_, ?_⟩
  · rw [hundo]
  · rw [hundo]
  · simp [clearRanges, hempty]

theorem C10_witness :
    (∀ r ∈ demoModel.removalRanges, r.id ≠ 99) ∧
    initModel.removalRanges = [] ∧
    (removeRange 99 demoModel).removalRanges = demoModel.removalRanges ∧
    (removeRange 99 demoModel).undoStack =
      demoModel.removalRanges :: demoModel.undoStack ∧
    (removeRange 99 demoModel).redoStack = [] ∧
    (undo (removeRange 99 demoModel)).removalRanges =
      demoModel.removalRanges ∧
    (undo (removeRange 99 demoModel)).undoStack = demoModel.undoStack ∧
    clearRanges initModel = initModel :=
  ⟨by decide, rfl,
    C10_remove_missing_and_clear_empty demoModel initModel 99
      (by decide) rfl⟩

end CutToTheChase
